import Mathlib

/-!
Shallow embedding of the two batch-audio scripts of this repository.

Pipeline A (`src/process.py`): robust WAV loading with a three-tier
fallback, normalization of decoded audio to a fixed target format,
grouping of the sorted file list into fixed-size slices, and the
output-naming rule for each exported group.

Pipeline B (`src/slice_audio.py`): parsing of `seconds` / `MM:SS` /
`HH:MM:SS` time strings, the `HHhMMmSSs` formatting of absolute start
times, and the window-slicing export loop.

Modelling conventions: Python floats are modelled as exact rationals
(binary floating-point rounding is not modelled); Python exceptions are
modelled as `Option`/error values; the external pydub decoder is a
parameter (a function from raw bytes to an optional decoded segment);
the byte-level conversions performed by pydub's `set_frame_rate`,
`set_channels` and `set_sample_width` are parameters as well, since the
repository delegates all audio coding to the external library.  The
numeric string parsers model Python's `int()` / `float()` on the
decimal shapes that occur here (optional sign, digits, optional
fractional part); underscores, exponents, `inf`/`nan` and the internal
whitespace-stripping of `int()`/`float()` are not modelled.
-/

namespace AE

/-! ## Pipeline A: robust loader (`robust_load_audio`, src/process.py lines 32-75) -/

/-- Byte values of the ASCII magic signature `b"RIFF"` searched for by tier 2. -/
def riffBytes : List Nat := [82, 73, 70, 70]

/-- First index at which `pat` occurs as a contiguous subsequence of `blob`;
`none` when absent.  This is Python's `bytes.find` (which returns `-1` for
absence). -/
def findSub (pat : List Nat) : List Nat → Option Nat
  | [] => if pat.isEmpty then some 0 else none
  | b :: rest =>
    if pat.isPrefixOf (b :: rest) then some 0
    else (findSub pat rest).map (· + 1)

/-- Observable outcome of one `robust_load_audio` invocation: the decoded
result (`none` models the final re-raise), whether tier 2 (header repair) was
attempted, the byte content written to the temporary trimmed file when tier 2
ran, and whether the temporary file still exists on return. -/
structure LoadTrace (α : Type) where
  result : Option α
  tier2Attempted : Bool
  trimmedBytes : Option (List Nat)
  tempExistsAfter : Bool

/-- Effect of `open(trimmed_path, "wb")` + `write` on the existence of the
temporary file. -/
def tempWrite (_st : Bool) : Bool := true

/-- Effect of `os.remove(trimmed_path)` on the existence of the temporary
file.  The source wraps the call in `try/except Exception: pass`; an
OS-level failure of the removal itself is not modelled, so removal succeeds. -/
def tempRemove (_st : Bool) : Bool := false

/-- Embedding of `robust_load_audio` (src/process.py lines 32-75).
`fromWav` models `AudioSegment.from_wav` as a function of the file's bytes
(`none` = the decode raised); `fromRaw` models the tier-3
`AudioSegment.from_raw` call on the original file; `blob` is the file's byte
content (the `open`/`read` of line 46-47 is assumed to succeed, as reading a
just-listed file).  Tier 1 tries `fromWav blob`; on failure tier 2 searches
`blob` for `b"RIFF"`, and if found at offset `k` writes `blob[k:]` to a
temporary path, retries `fromWav` on it and removes the temporary file on
either outcome; tier 3 decodes the original bytes as raw PCM. -/
def robust_load_audio {α : Type} (fromWav fromRaw : List Nat → Option α)
    (blob : List Nat) : LoadTrace α :=
  match fromWav blob with
  | some seg => ⟨some seg, false, none, false⟩
  | none =>
    match findSub riffBytes blob with
    | some k =>
      let trimmed := blob.drop k
      let st := tempWrite false
      match fromWav trimmed with
      | some seg => ⟨some seg, true, some trimmed, tempRemove st⟩
      | none => ⟨fromRaw blob, true, some trimmed, tempRemove st⟩
    | none => ⟨fromRaw blob, false, none, false⟩

/-! ## Pipeline A: normalizer (`normalize`, src/process.py lines 77-88) -/

/-- In-memory decoded audio: the three format fields inspected by
`normalize`, plus opaque sample data. -/
structure AudioSeg where
  frame_rate : Nat
  channels : Nat
  sample_width : Nat
  data : List Int
deriving DecidableEq, Repr

/-- Model of pydub's `set_frame_rate`: the result has the requested frame
rate; the byte-level resampling is the parameter `conv`. -/
def set_frame_rate (conv : List Int → List Int) (seg : AudioSeg) (r : Nat) : AudioSeg :=
  { frame_rate := r, channels := seg.channels, sample_width := seg.sample_width,
    data := conv seg.data }

/-- Model of pydub's `set_channels`: the result has the requested channel
count; the byte-level remixing is the parameter `conv`. -/
def set_channels (conv : List Int → List Int) (seg : AudioSeg) (c : Nat) : AudioSeg :=
  { frame_rate := seg.frame_rate, channels := c, sample_width := seg.sample_width,
    data := conv seg.data }

/-- Model of pydub's `set_sample_width`: the result has the requested sample
width; the byte-level requantization is the parameter `conv`. -/
def set_sample_width (conv : List Int → List Int) (seg : AudioSeg) (w : Nat) : AudioSeg :=
  { frame_rate := seg.frame_rate, channels := seg.channels, sample_width := w,
    data := conv seg.data }

/-- Line 82-83 of src/process.py: convert the frame rate only when it
differs from the target. -/
def norm_rate_step (conv : List Int → List Int) (tsr : Nat) (seg : AudioSeg) : AudioSeg :=
  if seg.frame_rate ≠ tsr then set_frame_rate conv seg tsr else seg

/-- Line 84-85 of src/process.py: convert the channel count only when it
differs from the target. -/
def norm_channels_step (conv : List Int → List Int) (tch : Nat) (seg : AudioSeg) : AudioSeg :=
  if seg.channels ≠ tch then set_channels conv seg tch else seg

/-- Line 86-87 of src/process.py: convert the sample width only when it
differs from the target. -/
def norm_width_step (conv : List Int → List Int) (tw : Nat) (seg : AudioSeg) : AudioSeg :=
  if seg.sample_width ≠ tw then set_sample_width conv seg tw else seg

/-- Embedding of `normalize` (src/process.py lines 77-88): the three
conditional conversions applied in source order. -/
def normalize (convR convC convW : List Int → List Int) (tsr tch tw : Nat)
    (seg : AudioSeg) : AudioSeg :=
  norm_width_step convW tw (norm_channels_step convC tch (norm_rate_step convR tsr seg))

/-! ## Pipeline A: grouping (src/process.py lines 114-115) -/

/-- Iteration of Python's `range(i, L, N)` starting at `i`, with explicit
fuel (the fuel is sufficient whenever `N ≥ 1`). -/
def pyRangeAux (L N : Nat) : Nat → Nat → List Nat
  | 0, _ => []
  | fuel + 1, i => if i < L then i :: pyRangeAux L N fuel (i + N) else []

/-- Python's `range(0, L, N)` for a positive step `N`. -/
def py_range_step (L N : Nat) : List Nat := pyRangeAux L N L 0

/-- Python's slice `l[i : i + n]`. -/
def py_slice {α : Type} (l : List α) (i n : Nat) : List α := (l.drop i).take n

/-- Embedding of the grouping loop (src/process.py lines 114-115):
`for i in range(0, len(sorted_files), files_per_group):
   group_files = sorted_files[i : i + files_per_group]`. -/
def group_files_of {α : Type} (N : Nat) (l : List α) : List (List α) :=
  (py_range_step l.length N).map (fun i => py_slice l i N)

/-- Specification-side description of the group sizes: `⌊L/N⌋` full groups
of size `N`, followed by one group of size `L mod N` when `N` does not
divide `L`. -/
def lengths_spec (R N : Nat) : List Nat :=
  List.replicate (R / N) N ++ (if R % N = 0 then [] else [R % N])

/-! ## Pipeline A: output naming (src/process.py lines 140-148) -/

/-- Python's `os.path.splitext(s)[0]` for a plain file name (no directory
separators): everything before the last dot, provided some earlier character
of the name is not a dot (leading dots never start an extension). -/
def splitext_base (s : String) : String :=
  let cs := s.toList
  let dotIdxs := (List.range cs.length).filter (fun i => (cs.drop i).take 1 == ['.'])
  match dotIdxs.getLast? with
  | none => s
  | some i => if (cs.take i).any (fun c => c ≠ '.') then String.mk (cs.take i) else s

/-- Anchored match of the filename pattern
`^SBW1520_(\d{8})_(\d{6})\.wav$` (src/process.py line 11), returning the
two captured groups (date, time) on success. -/
def sbw_match (s : String) : Option (String × String) :=
  let cs := s.toList
  let datePart := (cs.drop 8).take 8
  let timePart := (cs.drop 17).take 6
  if cs.length == 27 && cs.take 8 == "SBW1520_".toList &&
      datePart.all Char.isDigit && (cs.drop 16).take 1 == ['_'] &&
      timePart.all Char.isDigit && cs.drop 23 == ".wav".toList then
    some (String.mk datePart, String.mk timePart)
  else none

/-- Count of files of a group that load successfully (`ok_count` of the
per-group loop, src/process.py lines 123-131): one increment per file for
which `robust_load_audio` + `normalize` did not raise, in order. -/
def group_ok_count (loadOk : String → Bool) (g : List String) : Nat :=
  (g.filter loadOk).length

/-- Embedding of the export-naming code (src/process.py lines 140-148):
`first = group_files[0]`,
`last = group_files[ok_count - 1] if ok_count == len(group_files) else group_files[-1]`,
`end_tag` is the time capture of the pattern match on `last` (or its base
name when the pattern does not match), and the output name is
`f"{first_base}_TO_{end_tag}.wav"`. -/
def group_out_name (group_files : List String) (ok_count : Nat) : String :=
  let first := group_files.headD ""
  let last :=
    if ok_count == group_files.length then (group_files.drop (ok_count - 1)).headD ""
    else group_files.getLastD ""
  let first_base := splitext_base first
  let end_tag :=
    match sbw_match last with
    | some dt => dt.2
    | none => splitext_base last
  first_base ++ "_TO_" ++ end_tag ++ ".wav"

/-- Specification-side definition, following the spec's words, of "the last
file of the group that was successfully loaded": the last element of the
group whose load succeeded.  Used only to compare the source's naming rule
against the claimed one. -/
def last_successful (loadOk : String → Bool) (g : List String) : String :=
  (g.filter loadOk).getLastD ""

/-! ## Pipeline B: time parsing (`parse_hms_or_seconds`, src/slice_audio.py lines 6-18) -/

/-- Python's `str.strip()`: remove leading and trailing whitespace. -/
def pyStrip (s : String) : String :=
  String.mk (((s.toList.dropWhile Char.isWhitespace).reverse.dropWhile
    Char.isWhitespace).reverse)

/-- Value of a string of decimal digits. -/
def natOfDigits (cs : List Char) : Nat :=
  cs.foldl (fun a c => a * 10 + (c.toNat - 48)) 0

/-- Anchored match of the regular expression `^\d+(\.\d+)?$`
(src/slice_audio.py line 9): one or more digits, optionally followed by a
dot and one or more digits. -/
def isPlainNumRe (cs : List Char) : Bool :=
  let ds := cs.takeWhile Char.isDigit
  let rest := cs.dropWhile Char.isDigit
  !ds.isEmpty &&
    (rest.isEmpty ||
      (rest.headD ' ' == '.' && !(rest.drop 1).isEmpty && (rest.drop 1).all Char.isDigit))

/-- Unsigned decimal body accepted by Python's `float()`: digits with an
optional fractional part, at least one digit overall (so `"5."`, `".5"`,
`"5.3"`, `"5"` are accepted and `"."`, `""`, `"5.x"` are not). -/
def decBody (cs : List Char) : Option ℚ :=
  let ip := cs.takeWhile Char.isDigit
  let rest := cs.dropWhile Char.isDigit
  if rest.isEmpty then
    if ip.isEmpty then none else some (natOfDigits ip : ℚ)
  else if rest.headD ' ' == '.' && (rest.drop 1).all Char.isDigit &&
      !(ip.isEmpty && (rest.drop 1).isEmpty) then
    some ((natOfDigits ip : ℚ) + (natOfDigits (rest.drop 1) : ℚ) / (10 : ℚ) ^ (rest.drop 1).length)
  else none

/-- Sign handling of Python's `float()`: an optional leading sign, then a
decimal body. -/
def pyFloatChars : List Char → Option ℚ
  | [] => none
  | a :: rest =>
    if a = '+' then decBody rest
    else if a = '-' then (decBody rest).map (fun q => -q)
    else decBody (a :: rest)

/-- Model of Python's `float()` on decimal literals: optional sign, then a
decimal body. -/
def pyFloatQ (s : String) : Option ℚ :=
  pyFloatChars s.toList

/-- Unsigned-digit check used by the model of Python's `int()`. -/
def intDigits (cs : List Char) : Option Int :=
  if !cs.isEmpty && cs.all Char.isDigit then some (natOfDigits cs : Int) else none

/-- Sign handling of Python's `int()`: an optional leading sign, then one
or more digits. -/
def pyIntChars : List Char → Option Int
  | [] => none
  | a :: rest =>
    if a = '+' then intDigits rest
    else if a = '-' then (intDigits rest).map (fun n => -n)
    else intDigits (a :: rest)

/-- Model of Python's `int()` on decimal literals: optional sign, then one
or more digits. -/
def pyIntZ (s : String) : Option Int :=
  pyIntChars s.toList

/-- Embedding of `parse_hms_or_seconds` (src/slice_audio.py lines 6-18):
strip the input; a plain-number match returns its value as seconds;
otherwise split on `":"` and accept exactly two (`MM:SS`) or three
(`HH:MM:SS`) fields, the last parsed as a float, the others as ints; any
other shape fails (modelled as `none`, covering both the explicit
`ValueError` of line 18 and `ValueError`s raised by `int()`/`float()` on
non-numeric fields). -/
def parse_hms_or_seconds (s : String) : Option ℚ :=
  if isPlainNumRe (pyStrip s).toList then pyFloatQ (pyStrip s)
  else
    match (pyStrip s).splitOn ":" with
    | [mm, ss] =>
      match pyIntZ mm, pyFloatQ ss with
      | some m, some x => some ((m : ℚ) * 60 + x)
      | _, _ => none
    | [hh, mm, ss] =>
      match pyIntZ hh, pyIntZ mm, pyFloatQ ss with
      | some h, some m, some x => some ((h : ℚ) * 3600 + (m : ℚ) * 60 + x)
      | _, _, _ => none
    | _ => none

/-- Specification-side shape predicate for the inputs `parse_hms_or_seconds`
accepts: a plain (digit-leading, possibly fractional) number of seconds, or
two / three colon-separated fields whose minute and hour fields are integer
numerals and whose second field is a decimal numeral.  Used to compare the
parser's acceptance against the claimed contract. -/
def specTimeShape (s : String) : Bool :=
  isPlainNumRe (pyStrip s).toList ||
    (match (pyStrip s).splitOn ":" with
     | [mm, ss] => (pyIntZ mm).isSome && (pyFloatQ ss).isSome
     | [hh, mm, ss] => (pyIntZ hh).isSome && (pyIntZ mm).isSome && (pyFloatQ ss).isSome
     | _ => false)

/-! ## Pipeline B: `HHhMMmSSs` formatting (`hms_from_seconds`, src/slice_audio.py lines 20-24) -/

/-- Python's `int()` applied to a float: truncation toward zero. -/
def pyTrunc (x : ℚ) : Int :=
  if 0 ≤ x then ⌊x⌋ else -⌊-x⌋

/-- Python's `round()` to an integer: round half to even. -/
def pyRound (x : ℚ) : Int :=
  if x - ⌊x⌋ < 1 / 2 then ⌊x⌋
  else if 1 / 2 < x - ⌊x⌋ then ⌊x⌋ + 1
  else if ⌊x⌋ % 2 = 0 then ⌊x⌋ else ⌊x⌋ + 1

/-- Python's format `f"{n:02d}"`: decimal rendering padded with zeros to at
least two characters. -/
def pad2 (n : Int) : String :=
  let s := toString n
  if s.length < 2 then "0" ++ s else s

/-- Embedding of `hms_from_seconds` (src/slice_audio.py lines 20-24):
truncate to an integer, split by `divmod` (floor division, as in Python)
into hours, minutes, seconds, and format as `HHhMMmSSs`. -/
def hms_from_seconds (x : ℚ) : String :=
  let xi := pyTrunc x
  let h := Int.fdiv xi 3600
  let r := Int.fmod xi 3600
  let m := Int.fdiv r 60
  let s := Int.fmod r 60
  pad2 h ++ "h" ++ pad2 m ++ "m" ++ pad2 s ++ "s"

/-! ## Pipeline B: window slicing (src/slice_audio.py lines 26-90) -/

/-- Output filename of one chunk (src/slice_audio.py lines 80-83):
`f"{args.name}_{hms_from_seconds(start_sec + pos / 1000.0)}.wav"`. -/
def chunkName (name : String) (start_sec : ℚ) (pos : Int) : String :=
  name ++ "_" ++ hms_from_seconds (start_sec + (pos : ℚ) / 1000) ++ ".wav"

/-- Failure modes of one Pipeline B run: a time string that does not parse
(`ValueError` from `parse_hms_or_seconds`), the `assert end_sec > start_sec`
failing, the clamped window being empty or out of range, or fuel exhaustion
of the modelled export loop (the loop not terminating within the given
bound). -/
inductive SliceErr where
  | invalidTime : SliceErr
  | assertEndLeStart : SliceErr
  | emptyWindow : SliceErr
  | fuelOut : SliceErr
deriving DecidableEq, Repr

/-- Embedding of the chunk-export loop (src/slice_audio.py lines 72-88) as
a fuel-indexed recursion: from position `pos`, while `pos < wlen`, cut
`[pos, min (pos + chunkMs) wlen)`, stop before exporting a strictly short
final slice when `dropLast` is set, and advance `pos` to the cut's end.
Returns the list of exported `(pos, nxt)` intervals, or `none` when the
fuel runs out with the loop still running. -/
def chunkLoop (fuel : Nat) (wlen chunkMs : Int) (dropLast : Bool) (pos : Int) :
    Option (List (Int × Int)) :=
  match fuel with
  | 0 => if pos < wlen then none else some []
  | fuel' + 1 =>
    if pos < wlen then
      if dropLast = true ∧ min (pos + chunkMs) wlen - pos < chunkMs then some []
      else
        match chunkLoop fuel' wlen chunkMs dropLast (min (pos + chunkMs) wlen) with
        | some rest => some ((pos, min (pos + chunkMs) wlen) :: rest)
        | none => none
    else some []

/-- Embedding of `main` of src/slice_audio.py (lines 44-88) for one run:
`totalMs` is the loaded audio's length, the time strings are parsed, the
assertion `end_sec > start_sec` is checked, the window bounds are rounded
and clamped, and the export loop is run on the window.  The result is the
list of exported `(filename, length in ms)` pairs together with the error
that aborted the run, if any; exports happen strictly after all the checks,
as in the source. -/
def runSlice (totalMs : Nat) (startS endS : String) (chunk : ℚ) (dropLast : Bool)
    (name : String) : List (String × Nat) × Option SliceErr :=
  match parse_hms_or_seconds startS with
  | none => ([], some SliceErr.invalidTime)
  | some start_sec =>
    match parse_hms_or_seconds endS with
    | none => ([], some SliceErr.invalidTime)
    | some end_sec =>
      if end_sec ≤ start_sec then ([], some SliceErr.assertEndLeStart)
      else
        let start_ms : Int := max 0 (pyRound (start_sec * 1000))
        let end_ms : Int := min (totalMs : Int) (pyRound (end_sec * 1000))
        if end_ms ≤ start_ms then ([], some SliceErr.emptyWindow)
        else
          let wlen := end_ms - start_ms
          let chunk_ms := pyRound (chunk * 1000)
          match chunkLoop (wlen.toNat + 1) wlen chunk_ms dropLast 0 with
          | none => ([], some SliceErr.fuelOut)
          | some chunks =>
            (chunks.map (fun c => (chunkName name start_sec c.1, (c.2 - c.1).toNat)), none)

/-! ## Helper lemmas -/

/-- Helper: `getLastD` of a nonempty list does not depend on the default. -/
lemma getLastD_default_irrel {α : Type} (a : α) (t : List α) (d e : α) :
    (a :: t).getLastD d = (a :: t).getLastD e := by
  rw [List.getLastD_cons, List.getLastD_cons]

/-- Helper: `l[len - 1]` of a nonempty list is its last element. -/
lemma drop_pred_headD {α : Type} (d : α) (g : List α) (h : g ≠ []) :
    (g.drop (g.length - 1)).headD d = g.getLastD d := by
  induction g with
  | nil => exact absurd rfl h
  | cons a t ih =>
    cases t with
    | nil => rfl
    | cons b t2 =>
      have hlen : (a :: b :: t2).length - 1 = t2.length + 1 := by simp
      rw [List.getLastD_cons, hlen, List.drop_succ_cons]
      have h2 := ih (by simp)
      have hl3 : (b :: t2).length - 1 = t2.length := by simp
      rw [hl3] at h2
      rw [h2, getLastD_default_irrel b t2 d a]

/-! ## Claim theorems -/

/-- Claim C1, counterexample: a group of two pattern-matching files where
only the first loads successfully.  The source names the output after the
time tag `010000` of the second (failed) file, while the last successfully
loaded file is the first one, whose time tag is `000000`. -/
theorem c1_counterexample :
    group_out_name ["SBW1520_20200101_000000.wav", "SBW1520_20200101_010000.wav"]
      (group_ok_count (fun f => f == "SBW1520_20200101_000000.wav")
        ["SBW1520_20200101_000000.wav", "SBW1520_20200101_010000.wav"])
      = "SBW1520_20200101_000000_TO_010000.wav" ∧
    last_successful (fun f => f == "SBW1520_20200101_000000.wav")
      ["SBW1520_20200101_000000.wav", "SBW1520_20200101_010000.wav"]
      = "SBW1520_20200101_000000.wav" ∧
    sbw_match "SBW1520_20200101_000000.wav" = some ("20200101", "000000") ∧
    ("010000" : String) ≠ "000000" := by
  refine ⟨by decide, by decide, by decide, by decide⟩

/-- Claim C1, amended: for every nonempty group and every success count, the
exported name joins the first file's base name by `_TO_` to the time tag of
the group's LAST file — regardless of which files loaded successfully
(when all files succeed, `group_files[ok_count - 1]` is that same last
file). -/
theorem c1_amended (g : List String) (okc : Nat) (h : g ≠ []) :
    group_out_name g okc =
      splitext_base (g.headD "") ++ "_TO_" ++
        (match sbw_match (g.getLastD "") with
         | some dt => dt.2
         | none => splitext_base (g.getLastD "")) ++ ".wav" := by
  unfold group_out_name
  by_cases hok : okc = g.length
  · subst hok
    simp only [beq_self_eq_true, if_pos]
    rw [drop_pred_headD "" g h]
  · have : (okc == g.length) = false := by simpa using hok
    simp only [this, Bool.false_eq_true, if_neg, not_false_iff]

/-- Claim C1, witness for the amended theorem at a concrete one-file group. -/
theorem c1_witness :
    group_out_name ["SBW1520_20200101_000000.wav"] 1 =
      splitext_base ((["SBW1520_20200101_000000.wav"] : List String).headD "") ++ "_TO_" ++
        (match sbw_match ((["SBW1520_20200101_000000.wav"] : List String).getLastD "") with
         | some dt => dt.2
         | none => splitext_base ((["SBW1520_20200101_000000.wav"] : List String).getLastD ""))
        ++ ".wav" :=
  c1_amended ["SBW1520_20200101_000000.wav"] 1 (by simp)

/-- Claim C2, counterexample: a blob whose `RIFF` signature sits at offset
`k = 0` (and whose direct decode fails) still triggers tier 2 in the
source, contradicting the claimed condition `k > 0`. -/
theorem c2_counterexample :
    (robust_load_audio (fun _ => (none : Option Unit)) (fun _ => none)
        [82, 73, 70, 70]).tier2Attempted = true ∧
    findSub riffBytes [82, 73, 70, 70] = some 0 :=
  ⟨rfl, rfl⟩

/-- Claim C2, amended: tier 2 is attempted exactly when the direct decode
failed and the `RIFF` signature occurs at SOME offset `k ≥ 0` (the source
tests `riff_pos >= 0`, not `> 0`); whenever it is attempted with the
signature at offset `k`, the retried decode runs on the bytes from `k`
onward, written to the temporary path. -/
theorem c2_amended {α : Type} (fromWav fromRaw : List Nat → Option α) (blob : List Nat) :
    ((robust_load_audio fromWav fromRaw blob).tier2Attempted = true ↔
      fromWav blob = none ∧ (findSub riffBytes blob).isSome = true) ∧
    (∀ k : Nat, fromWav blob = none → findSub riffBytes blob = some k →
      (robust_load_audio fromWav fromRaw blob).trimmedBytes = some (blob.drop k)) := by
  constructor
  · cases h1 : fromWav blob with
    | some s => simp [robust_load_audio, h1]
    | none =>
      cases h2 : findSub riffBytes blob with
      | some k =>
        cases h3 : fromWav (blob.drop k) with
        | some s => simp [robust_load_audio, h1, h2, h3]
        | none => simp [robust_load_audio, h1, h2, h3]
      | none => simp [robust_load_audio, h1, h2]
  · intro k hw hf
    cases h3 : fromWav (blob.drop k) with
    | some s => simp [robust_load_audio, hw, hf, h3]
    | none => simp [robust_load_audio, hw, hf, h3]

/-- Claim C2, witness: with both decoders failing and the signature at
offset 1, tier 2 retries on the bytes from offset 1 onward. -/
theorem c2_witness :
    (robust_load_audio (fun _ => (none : Option Unit)) (fun _ => none)
        [0, 82, 73, 70, 70]).trimmedBytes = some [82, 73, 70, 70] :=
  (c2_amended (fun _ => (none : Option Unit)) (fun _ => none) [0, 82, 73, 70, 70]).2
    1 rfl rfl

/-- Claim C3: on every invocation and every decode outcome, the temporary
trimmed file created by tier 2 no longer exists when `robust_load_audio`
returns — it is removed on both the success and the failure branch of the
retried decode. -/
theorem c3_temp_cleanup {α : Type} (fromWav fromRaw : List Nat → Option α) (blob : List Nat) :
    (robust_load_audio fromWav fromRaw blob).tempExistsAfter = false := by
  cases h1 : fromWav blob with
  | some s => simp [robust_load_audio, h1]
  | none =>
    cases h2 : findSub riffBytes blob with
    | some k =>
      cases h3 : fromWav (blob.drop k) with
      | some s => simp [robust_load_audio, tempRemove, h1, h2, h3]
      | none => simp [robust_load_audio, tempRemove, h1, h2, h3]
    | none => simp [robust_load_audio, h1, h2]

/-- Claim C7: a 40-second window with 15-second chunks exports three chunks
of 15 s, 15 s and 10 s when `drop_last` is unset, and exactly the two full
15-second chunks when `drop_last` is set. -/
theorem c7_forty_second_window :
    runSlice 40000 "0" "40" 15 false "n" =
      ([("n_00h00m00s.wav", 15000), ("n_00h00m15s.wav", 15000), ("n_00h00m30s.wav", 10000)],
        none) ∧
    runSlice 40000 "0" "40" 15 true "n" =
      ([("n_00h00m00s.wav", 15000), ("n_00h00m15s.wav", 15000)], none) :=
  ⟨by with_unfolding_all rfl, by with_unfolding_all rfl⟩

/-- Helper: the result of `normalize` always carries the three target
format fields. -/
lemma normalize_fields (convR convC convW : List Int → List Int) (tsr tch tw : Nat)
    (seg : AudioSeg) :
    (normalize convR convC convW tsr tch tw seg).frame_rate = tsr ∧
    (normalize convR convC convW tsr tch tw seg).channels = tch ∧
    (normalize convR convC convW tsr tch tw seg).sample_width = tw := by
  unfold normalize norm_rate_step norm_channels_step norm_width_step set_frame_rate
    set_channels set_sample_width
  by_cases h1 : seg.frame_rate = tsr <;> by_cases h2 : seg.channels = tch <;>
    by_cases h3 : seg.sample_width = tw <;> simp [h1, h2, h3]

/-- Claim C8: a segment already at the target sample rate, channel count and
sample width is returned unchanged by `normalize` (no conversion fires), and
`normalize` is idempotent on every segment, for every choice of the
library's byte-level converters. -/
theorem c8_normalize (convR convC convW : List Int → List Int) (tsr tch tw : Nat) :
    (∀ seg : AudioSeg, seg.frame_rate = tsr → seg.channels = tch → seg.sample_width = tw →
      normalize convR convC convW tsr tch tw seg = seg) ∧
    (∀ seg : AudioSeg,
      normalize convR convC convW tsr tch tw (normalize convR convC convW tsr tch tw seg) =
        normalize convR convC convW tsr tch tw seg) := by
  have noop : ∀ seg : AudioSeg, seg.frame_rate = tsr → seg.channels = tch →
      seg.sample_width = tw → normalize convR convC convW tsr tch tw seg = seg := by
    intro seg h1 h2 h3
    simp [normalize, norm_rate_step, norm_channels_step, norm_width_step, h1, h2, h3]
  refine ⟨noop, fun seg => ?_⟩
  obtain ⟨f1, f2, f3⟩ := normalize_fields convR convC convW tsr tch tw seg
  exact noop _ f1 f2 f3

/-- Claim C8, witness: a conforming concrete segment is a fixed point of
`normalize`, and idempotence holds at it. -/
theorem c8_witness :
    normalize id id id 32000 1 2 ⟨32000, 1, 2, [7]⟩ = ⟨32000, 1, 2, [7]⟩ ∧
    normalize id id id 32000 1 2 (normalize id id id 32000 1 2 ⟨32000, 1, 2, [7]⟩) =
      normalize id id id 32000 1 2 ⟨32000, 1, 2, [7]⟩ :=
  ⟨(c8_normalize id id id 32000 1 2).1 ⟨32000, 1, 2, [7]⟩ rfl rfl rfl,
   (c8_normalize id id id 32000 1 2).2 ⟨32000, 1, 2, [7]⟩⟩

/-- Claim C9: whenever both time strings parse and the parsed end is at most
the parsed start, the run aborts with the assertion error and exports no
chunk file. -/
theorem c9_assert_before_export (totalMs : Nat) (startS endS : String) (chunk : ℚ)
    (dropLast : Bool) (name : String) (ssec esec : ℚ)
    (h1 : parse_hms_or_seconds startS = some ssec)
    (h2 : parse_hms_or_seconds endS = some esec) (h3 : esec ≤ ssec) :
    runSlice totalMs startS endS chunk dropLast name = ([], some SliceErr.assertEndLeStart) := by
  simp [runSlice, h1, h2, h3]

/-- Claim C9, witness: start 10 s, end 5 s aborts with the assertion error
and an empty export list. -/
theorem c9_witness :
    runSlice 1000 "10" "5" 15 false "n" = ([], some SliceErr.assertEndLeStart) :=
  c9_assert_before_export 1000 "10" "5" 15 false "n" 10 5 (by decide) (by decide)
    (by norm_num)

/-- Helper: concatenating the slices produced from index `i` onward
recovers the dropped suffix, for any sufficient fuel. -/
lemma group_join_aux {α : Type} (N : Nat) (hN : 0 < N) (l : List α) :
    ∀ (fuel : Nat) (i : Nat), l.length ≤ i + fuel * N →
      ((pyRangeAux l.length N fuel i).map (fun j => py_slice l j N)).flatten = l.drop i := by
  intro fuel
  induction fuel with
  | zero =>
    intro i h
    simp only [pyRangeAux, List.map_nil, List.flatten_nil]
    rw [List.drop_eq_nil_of_le (by omega)]
  | succ fuel ih =>
    intro i h
    by_cases hi : i < l.length
    · simp only [pyRangeAux, if_pos hi, List.map_cons, List.flatten_cons]
      have hb : l.length ≤ i + N + fuel * N := by
        rw [Nat.succ_mul] at h; omega
      rw [ih (i + N) hb]
      show (l.drop i).take N ++ l.drop (i + N) = l.drop i
      exact List.drop_take_append_drop l i N
    · simp only [pyRangeAux, if_neg hi, List.map_nil, List.flatten_nil]
      rw [List.drop_eq_nil_of_le (by omega)]

/-- Helper: peeling one group off the size description when elements
remain. -/
lemma lengths_spec_cons (N R : Nat) (hN : 0 < N) (hR : 0 < R) :
    lengths_spec R N = min N R :: lengths_spec (R - N) N := by
  by_cases hle : N ≤ R
  · have hmin : min N R = N := min_eq_left hle
    have hdiv : R / N = (R - N) / N + 1 := Nat.div_eq_sub_div hN hle
    have hmod : R % N = (R - N) % N := Nat.mod_eq_sub_mod hle
    rw [lengths_spec, lengths_spec, hdiv, hmod, hmin, List.replicate_succ]
    simp
  · push_neg at hle
    have hmin : min N R = R := min_eq_right (le_of_lt hle)
    have h1 : R / N = 0 := Nat.div_eq_of_lt hle
    have h2 : R % N = R := Nat.mod_eq_of_lt hle
    have h3 : R - N = 0 := Nat.sub_eq_zero_of_le (le_of_lt hle)
    rw [lengths_spec, lengths_spec, h1, h2, h3, hmin]
    simp [hR.ne']

/-- Helper: the slice lengths produced from index `i` onward follow
`lengths_spec` on the remaining count, for any sufficient fuel. -/
lemma group_lengths_aux {α : Type} (N : Nat) (hN : 0 < N) (l : List α) :
    ∀ (fuel : Nat) (i : Nat), l.length ≤ i + fuel * N →
      (pyRangeAux l.length N fuel i).map (fun j => (py_slice l j N).length) =
        lengths_spec (l.length - i) N := by
  intro fuel
  induction fuel with
  | zero =>
    intro i h
    have h0 : l.length - i = 0 := by omega
    simp [pyRangeAux, h0, lengths_spec]
  | succ fuel ih =>
    intro i h
    by_cases hi : i < l.length
    · simp only [pyRangeAux, if_pos hi, List.map_cons]
      have hb : l.length ≤ i + N + fuel * N := by
        rw [Nat.succ_mul] at h; omega
      rw [ih (i + N) hb]
      have hR : 0 < l.length - i := by omega
      rw [lengths_spec_cons N (l.length - i) hN hR]
      congr 1
      · show ((l.drop i).take N).length = min N (l.length - i)
        rw [List.length_take, List.length_drop]
      · congr 1
        omega
    · simp only [pyRangeAux, if_neg hi, List.map_nil]
      have h0 : l.length - i = 0 := by omega
      rw [h0]
      simp [lengths_spec]

/-- Helper: the ceiling-division form of the group count. -/
lemma ceil_div_count (L N : Nat) (hN : 0 < N) :
    L / N + (if L % N = 0 then 0 else 1) = (L + N - 1) / N := by
  have hmod : L % N < N := Nat.mod_lt L hN
  have hdm := Nat.div_add_mod L N
  by_cases h0 : L % N = 0
  · simp only [h0, if_pos, add_zero]
    have he : L + N - 1 = N * (L / N) + (N - 1) := by omega
    rw [he, Nat.mul_add_div hN]
    have hz : (N - 1) / N = 0 := Nat.div_eq_of_lt (by omega)
    omega
  · simp only [h0, if_neg, ite_false]
    have hmm : N * (L / N + 1) = N * (L / N) + N := by ring
    have he : L + N - 1 = N * (L / N + 1) + (L % N - 1) := by omega
    rw [he, Nat.mul_add_div hN]
    have hz : (L % N - 1) / N = 0 := Nat.div_eq_of_lt (by omega)
    omega

/-- Claim C5: for every sorted list of `L` files and every group size
`N > 0`, the grouping loop partitions the list: concatenating the groups in
order yields exactly the original list, the group sizes are `N` for every
group except a final group of `L mod N` files when `N` does not divide `L`,
and the number of groups is `⌈L/N⌉ = (L + N - 1) / N`. -/
theorem c5_grouping {α : Type} (N : Nat) (hN : 0 < N) (l : List α) :
    (group_files_of N l).flatten = l ∧
    (group_files_of N l).map List.length = lengths_spec l.length N ∧
    (group_files_of N l).length = (l.length + N - 1) / N := by
  have hfuel : l.length ≤ 0 + l.length * N := by
    have h1 : l.length * 1 ≤ l.length * N := Nat.mul_le_mul_left _ hN
    omega
  have hj := group_join_aux N hN l l.length 0 hfuel
  have hl := group_lengths_aux N hN l l.length 0 hfuel
  rw [Nat.sub_zero] at hl
  refine ⟨?_, ?_, ?_⟩
  · simpa [group_files_of, py_range_step] using hj
  · simpa [group_files_of, py_range_step, List.map_map, Function.comp] using hl
  · have hcl := congrArg List.length hl
    rw [List.length_map] at hcl
    have hlen2 : (group_files_of N l).length = (pyRangeAux l.length N l.length 0).length := by
      simp [group_files_of, py_range_step]
    rw [hlen2, hcl]
    have hc := ceil_div_count l.length N hN
    by_cases h0 : l.length % N = 0
    · simp only [h0, if_pos, add_zero] at hc
      simp [lengths_spec, h0, hc]
    · simp only [h0, if_neg, ite_false] at hc
      simp [lengths_spec, h0]
      omega

/-- Claim C5, witness at a concrete list of three files with group size 2. -/
theorem c5_witness :
    (group_files_of 2 ["a", "b", "c"]).flatten = ["a", "b", "c"] ∧
    (group_files_of 2 ["a", "b", "c"]).map List.length =
      lengths_spec (["a", "b", "c"] : List String).length 2 ∧
    (group_files_of 2 ["a", "b", "c"]).length =
      ((["a", "b", "c"] : List String).length + 2 - 1) / 2 :=
  c5_grouping 2 (by norm_num) ["a", "b", "c"]

/-- Helper: a string matched by the plain-number regular expression is
accepted by the decimal-body parser. -/
lemma decBody_isSome_of_re (cs : List Char) (h : isPlainNumRe cs = true) :
    (decBody cs).isSome = true := by
  rw [isPlainNumRe] at h
  simp only [Bool.and_eq_true, Bool.or_eq_true] at h
  obtain ⟨h1, h2⟩ := h
  have h1' : (cs.takeWhile Char.isDigit).isEmpty = false := by simpa using h1
  rw [decBody]
  by_cases hre : (cs.dropWhile Char.isDigit).isEmpty
  · simp [hre, h1']
  · have hre' : (cs.dropWhile Char.isDigit).isEmpty = false := by simpa using hre
    rcases h2 with h2 | h2
    · exact absurd h2 hre
    · obtain ⟨⟨hdot, hne⟩, hall⟩ := h2
      simp only [hre', h1', Bool.false_eq_true, if_false]
      simp [hre', h1']
      constructor
      · simpa using hdot
      · intro x hx
        refine List.all_eq_true.mp hall x ?_
        simpa [List.drop_one] using hx

/-- Helper: a string matched by the plain-number regular expression is
accepted by the float model (its first character is a digit, so no sign
branch fires). -/
lemma pyFloatQ_isSome_of_re (t : String) (h : isPlainNumRe t.toList = true) :
    (pyFloatQ t).isSome = true := by
  rw [pyFloatQ]
  rcases hcs : t.toList with _ | ⟨a, rest⟩
  · rw [hcs] at h
    exact absurd h (by decide)
  · rw [hcs] at h
    have ha : a.isDigit = true := by
      by_contra hna
      have hna' : a.isDigit = false := by simpa using hna
      simp [isPlainNumRe, List.takeWhile_cons, hna'] at h
    have hap : ¬(a = '+') := by
      intro he; rw [he] at ha; exact absurd ha (by decide)
    have ham : ¬(a = '-') := by
      intro he; rw [he] at ha; exact absurd ha (by decide)
    rw [pyFloatChars, if_neg hap, if_neg ham]
    exact decBody_isSome_of_re (a :: rest) h

/-- Claim C6, counterexample: `".5"` denotes a plain fractional number of
seconds (Python's own `float` accepts it as one half), yet
`parse_hms_or_seconds` rejects it, because the plain-seconds regular
expression `^\d+(\.\d+)?$` requires a leading digit. -/
theorem c6_counterexample :
    pyFloatQ ".5" = some (1 / 2) ∧ parse_hms_or_seconds ".5" = none := by
  constructor
  · with_unfolding_all rfl
  · with_unfolding_all rfl

/-- Claim C6, amended: the four concrete cases hold (`"90"` to 90,
`"1:30"` to 90, `"01:01:30"` to 3690, `"bad"` fails), and in general the
parser accepts exactly: a digit-leading plain number (per the regular
expression `\d+(\.\d+)?`, so fractional forms without a leading digit such
as `".5"` are rejected), or two / three colon-separated fields whose
hour/minute fields are Python integer numerals and whose second field is a
Python decimal numeral; every other shape fails. -/
theorem c6_amended :
    parse_hms_or_seconds "90" = some 90 ∧
    parse_hms_or_seconds "1:30" = some 90 ∧
    parse_hms_or_seconds "01:01:30" = some 3690 ∧
    parse_hms_or_seconds "bad" = none ∧
    ∀ s : String, (parse_hms_or_seconds s).isSome = specTimeShape s := by
  refine ⟨by with_unfolding_all rfl, by with_unfolding_all rfl, by with_unfolding_all rfl,
    by with_unfolding_all rfl, ?_⟩
  intro s
  by_cases hp : isPlainNumRe (pyStrip s).toList
  · rw [parse_hms_or_seconds, specTimeShape, if_pos hp, hp, Bool.true_or]
    exact pyFloatQ_isSome_of_re _ hp
  · have hp' : isPlainNumRe (pyStrip s).toList = false := by simpa using hp
    rw [parse_hms_or_seconds, specTimeShape, if_neg hp, hp', Bool.false_or]
    rcases hsp : (pyStrip s).splitOn ":" with _ | ⟨a, _ | ⟨b, _ | ⟨c, _ | ⟨d, r⟩⟩⟩⟩
    · simp
    · simp
    · cases hA : pyIntZ a <;> cases hB : pyFloatQ b <;> simp [hA, hB]
    · cases hA : pyIntZ a <;> cases hB : pyIntZ b <;> cases hC : pyFloatQ c <;>
        simp [hA, hB, hC]
    · simp

/-- Helper: once the position has reached the window end, the loop exports
nothing more, for any fuel. -/
lemma chunkLoop_done (fuel : Nat) (wlen cm : Int) (dl : Bool) (pos : Int)
    (h : ¬ pos < wlen) : chunkLoop fuel wlen cm dl pos = some [] := by
  cases fuel with
  | zero => rw [chunkLoop, if_neg h]
  | succ fuel => rw [chunkLoop, if_neg h]

/-- Helper: the first exported chunk of a run starting at `pos` starts at
`pos`. -/
lemma chunkLoop_head (fuel : Nat) (wlen cm : Int) (dl : Bool) (pos : Int)
    (c : Int × Int) (rest : List (Int × Int))
    (h : chunkLoop fuel wlen cm dl pos = some (c :: rest)) : c.1 = pos := by
  cases fuel with
  | zero =>
    by_cases hp : pos < wlen
    · rw [chunkLoop, if_pos hp] at h; cases h
    · rw [chunkLoop, if_neg hp] at h; injection h with h; cases h
  | succ fuel =>
    by_cases hp : pos < wlen
    · rw [chunkLoop, if_pos hp] at h
      by_cases hd : dl = true ∧ min (pos + cm) wlen - pos < cm
      · rw [if_pos hd] at h; injection h with h; cases h
      · rw [if_neg hd] at h
        cases hrec : chunkLoop fuel wlen cm dl (min (pos + cm) wlen) with
        | none => rw [hrec] at h; cases h
        | some rest2 =>
          rw [hrec] at h
          injection h with h
          injection h with h1 h2
          rw [← h1]
    · rw [chunkLoop, if_neg hp] at h; injection h with h; cases h

/-- Helper: consecutive exported chunks start exactly `chunkMs` apart. -/
lemma chunkLoop_chain (wlen cm : Int) (dl : Bool) :
    ∀ (fuel : Nat) (pos : Int) (chunks : List (Int × Int)),
      chunkLoop fuel wlen cm dl pos = some chunks →
      List.Chain' (fun a b : Int × Int => b.1 = a.1 + cm) chunks := by
  intro fuel
  induction fuel with
  | zero =>
    intro pos chunks h
    by_cases hp : pos < wlen
    · rw [chunkLoop, if_pos hp] at h; cases h
    · rw [chunkLoop, if_neg hp] at h
      injection h with h
      subst h
      exact List.chain'_nil
  | succ fuel ih =>
    intro pos chunks h
    by_cases hp : pos < wlen
    · rw [chunkLoop, if_pos hp] at h
      by_cases hd : dl = true ∧ min (pos + cm) wlen - pos < cm
      · rw [if_pos hd] at h; injection h with h; subst h; exact List.chain'_nil
      · rw [if_neg hd] at h
        cases hrec : chunkLoop fuel wlen cm dl (min (pos + cm) wlen) with
        | none => rw [hrec] at h; cases h
        | some rest =>
          rw [hrec] at h
          injection h with h
          subst h
          have hchain := ih (min (pos + cm) wlen) rest hrec
          rw [List.chain'_cons']
          refine ⟨?_, hchain⟩
          intro y hy
          cases rest with
          | nil => simp at hy
          | cons r rest2 =>
            simp only [List.head?_cons, Option.mem_def, Option.some.injEq] at hy
            subst hy
            have hr1 : r.1 = min (pos + cm) wlen :=
              chunkLoop_head fuel wlen cm dl (min (pos + cm) wlen) r rest2 hrec
            by_cases hle : pos + cm ≤ wlen
            · rw [hr1, min_eq_left hle]
            · push_neg at hle
              have hmin : min (pos + cm) wlen = wlen := min_eq_right (le_of_lt hle)
              rw [hmin] at hrec
              rw [chunkLoop_done fuel wlen cm dl wlen (lt_irrefl wlen)] at hrec
              simp at hrec
    · rw [chunkLoop, if_neg hp] at h
      injection h with h
      subst h
      exact List.chain'_nil

/-- Helper: starting from a nonnegative position with a nonnegative step,
every exported chunk starts at a nonnegative position. -/
lemma chunkLoop_pos_lb (wlen cm : Int) (dl : Bool) (hcm : 0 ≤ cm) :
    ∀ (fuel : Nat) (pos : Int), 0 ≤ pos →
      ∀ chunks, chunkLoop fuel wlen cm dl pos = some chunks → ∀ c ∈ chunks, 0 ≤ c.1 := by
  intro fuel
  induction fuel with
  | zero =>
    intro pos hpos chunks h c hc
    by_cases hp : pos < wlen
    · rw [chunkLoop, if_pos hp] at h; cases h
    · rw [chunkLoop, if_neg hp] at h; injection h with h; subst h; simp at hc
  | succ fuel ih =>
    intro pos hpos chunks h c hc
    by_cases hp : pos < wlen
    · rw [chunkLoop, if_pos hp] at h
      by_cases hd : dl = true ∧ min (pos + cm) wlen - pos < cm
      · rw [if_pos hd] at h; injection h with h; subst h; simp at hc
      · rw [if_neg hd] at h
        cases hrec : chunkLoop fuel wlen cm dl (min (pos + cm) wlen) with
        | none => rw [hrec] at h; cases h
        | some rest =>
          rw [hrec] at h
          injection h with h
          subst h
          rcases List.mem_cons.mp hc with hc | hc
          · subst hc; simpa using hpos
          · exact ih (min (pos + cm) wlen) (by omega) rest hrec c hc
    · rw [chunkLoop, if_neg hp] at h; injection h with h; subst h; simp at hc

/-- Helper: truncation agrees with the floor on nonnegative arguments. -/
lemma pyTrunc_eq_floor (x : ℚ) (hx : 0 ≤ x) : pyTrunc x = ⌊x⌋ := if_pos hx

/-- Helper: advancing the start position by a step of at least 1000 ms
strictly increases the truncated absolute second count of the tag. -/
lemma tag_lt (start : ℚ) (cm : Int) (hs : 0 ≤ start) (hc : 1000 ≤ cm) (p q : Int)
    (hp : 0 ≤ p) (hq : q = p + cm) :
    pyTrunc (start + (p : ℚ) / 1000) < pyTrunc (start + (q : ℚ) / 1000) := by
  have hp0 : (0 : ℚ) ≤ (p : ℚ) := by exact_mod_cast hp
  have hq0 : (0 : ℚ) ≤ (q : ℚ) := by
    have : 0 ≤ q := by omega
    exact_mod_cast this
  have hp' : (0 : ℚ) ≤ start + (p : ℚ) / 1000 :=
    add_nonneg hs (div_nonneg hp0 (by norm_num))
  have hq' : (0 : ℚ) ≤ start + (q : ℚ) / 1000 :=
    add_nonneg hs (div_nonneg hq0 (by norm_num))
  rw [pyTrunc_eq_floor _ hp', pyTrunc_eq_floor _ hq']
  have hcast : (1000 : ℚ) ≤ (cm : ℚ) := by exact_mod_cast hc
  have hstep : start + (p : ℚ) / 1000 + 1 ≤ start + (q : ℚ) / 1000 := by
    have hqq : (q : ℚ) = (p : ℚ) + (cm : ℚ) := by exact_mod_cast hq
    rw [hqq]
    have hdiv : (1 : ℚ) ≤ (cm : ℚ) / 1000 := by
      rw [le_div_iff (by norm_num : (0 : ℚ) < 1000)]
      linarith
    have hsplit : ((p : ℚ) + (cm : ℚ)) / 1000 = (p : ℚ) / 1000 + (cm : ℚ) / 1000 :=
      add_div _ _ _
    rw [hsplit]
    linarith
  calc ⌊start + (p : ℚ) / 1000⌋ < ⌊start + (p : ℚ) / 1000⌋ + 1 := by omega
    _ = ⌊start + (p : ℚ) / 1000 + 1⌋ := (Int.floor_add_one _).symm
    _ ≤ ⌊start + (q : ℚ) / 1000⌋ := Int.floor_le_floor hstep

/-- Helper: a chain of chunks stepping by at least 1000 ms, starting at
nonnegative positions, has strictly increasing tag values. -/
lemma tag_chain_of (start : ℚ) (cm : Int) (hs : 0 ≤ start) (hc : 1000 ≤ cm) :
    ∀ (chunks : List (Int × Int)),
      List.Chain' (fun a b : Int × Int => b.1 = a.1 + cm) chunks →
      (∀ c ∈ chunks, 0 ≤ c.1) →
      List.Chain' (· < ·) (chunks.map (fun c => pyTrunc (start + (c.1 : ℚ) / 1000))) := by
  intro chunks
  induction chunks with
  | nil => intro _ _; simp
  | cons a t ihc =>
    intro hchain hlb
    rw [List.map_cons, List.chain'_cons']
    refine ⟨?_, ihc (List.chain'_cons'.mp hchain).2
      (fun c hcmem => hlb c (List.mem_cons_of_mem a hcmem))⟩
    intro y hy
    cases t with
    | nil => simp at hy
    | cons b t2 =>
      simp only [List.map_cons, List.head?_cons, Option.mem_def, Option.some.injEq] at hy
      subst hy
      have hab : b.1 = a.1 + cm := (List.chain'_cons.mp hchain).1
      exact tag_lt start cm hs hc a.1 b.1 (hlb a (List.mem_cons_self a (b :: t2))) hab

/-- Claim C4, counterexample: a run with a positive chunk duration of 0.4 s
on a 1-second window exports three chunks whose filenames all carry the
same `00h00m00s` tag — the tag is not strictly increasing and the exported
chunks collide on one filename. -/
theorem c4_counterexample :
    (runSlice 1000 "0" "1" (2 / 5) false "n").1.map Prod.fst =
      ["n_00h00m00s.wav", "n_00h00m00s.wav", "n_00h00m00s.wav"] ∧
    (runSlice 1000 "0" "1" (2 / 5) false "n").2 = none := by
  constructor
  · with_unfolding_all rfl
  · with_unfolding_all rfl

/-- Claim C4, amended: for a nonnegative window start and a chunk step of at
least 1000 ms (a chunk duration that rounds to at least one second), the
integer second count encoded in the `HHhMMmSSs` tag is strictly increasing
along the exported chunks of a run, hence pairwise distinct — but not for
every positive chunk duration: sub-second chunks repeat tags, as the
counterexample shows. -/
theorem c4_amended (start : ℚ) (wlen cm : Int) (dl : Bool) (fuel : Nat)
    (chunks : List (Int × Int)) (hs : 0 ≤ start) (hc : 1000 ≤ cm)
    (h : chunkLoop fuel wlen cm dl 0 = some chunks) :
    List.Chain' (· < ·) (chunks.map (fun c => pyTrunc (start + (c.1 : ℚ) / 1000))) ∧
    List.Pairwise (· ≠ ·) (chunks.map (fun c => pyTrunc (start + (c.1 : ℚ) / 1000))) := by
  have hchain := chunkLoop_chain wlen cm dl fuel 0 chunks h
  have hlb := chunkLoop_pos_lb wlen cm dl (by omega) fuel 0 (le_refl 0) chunks h
  have hmono := tag_chain_of start cm hs hc chunks hchain hlb
  refine ⟨hmono, ?_⟩
  have hpw : List.Pairwise (· < ·)
      (chunks.map (fun c => pyTrunc (start + (c.1 : ℚ) / 1000))) :=
    List.chain'_iff_pairwise.mp hmono
  exact hpw.imp (fun hlt => ne_of_lt hlt)

/-- Claim C4, witness for the amended theorem at the chunks of a concrete
run (40-second window, 15-second chunks, start 0). -/
theorem c4_witness :
    List.Chain' (· < ·)
      (([((0 : Int), (15000 : Int)), (15000, 30000), (30000, 40000)]).map
        (fun c => pyTrunc ((0 : ℚ) + (c.1 : ℚ) / 1000))) ∧
    List.Pairwise (· ≠ ·)
      (([((0 : Int), (15000 : Int)), (15000, 30000), (30000, 40000)]).map
        (fun c => pyTrunc ((0 : ℚ) + (c.1 : ℚ) / 1000))) :=
  c4_amended 0 40000 15000 false 5 [(0, 15000), (15000, 30000), (30000, 40000)]
    (le_refl 0) (by norm_num) (by decide)

/-- Helper: with a step of at least 1 ms the loop finishes within
`wlen - pos` iterations. -/
lemma chunkLoop_total (wlen cm : Int) (dl : Bool) (hcm : 1 ≤ cm) :
    ∀ (fuel : Nat) (pos : Int), wlen - pos ≤ (fuel : Int) →
      (chunkLoop fuel wlen cm dl pos).isSome = true := by
  intro fuel
  induction fuel with
  | zero =>
    intro pos h
    have hp : ¬ pos < wlen := by
      simp only [Nat.cast_zero] at h
      omega
    rw [chunkLoop, if_neg hp]
    rfl
  | succ fuel ih =>
    intro pos h
    by_cases hp : pos < wlen
    · rw [chunkLoop, if_pos hp]
      by_cases hd : dl = true ∧ min (pos + cm) wlen - pos < cm
      · rw [if_pos hd]; rfl
      · rw [if_neg hd]
        have hb : wlen - min (pos + cm) wlen ≤ (fuel : Int) := by
          push_cast at h
          omega
        have hrec := ih (min (pos + cm) wlen) hb
        cases hh : chunkLoop fuel wlen cm dl (min (pos + cm) wlen) with
        | none => rw [hh] at hrec; simp at hrec
        | some rest => rfl
    · rw [chunkLoop, if_neg hp]; rfl

/-- Helper: with a step of 0 ms and `drop_last` unset, the position never
advances, so the loop runs out of any fuel while the window is nonempty. -/
lemma chunkLoop_zero_stuck (wlen : Int) :
    ∀ (fuel : Nat) (pos : Int), pos < wlen → chunkLoop fuel wlen 0 false pos = none := by
  intro fuel
  induction fuel with
  | zero =>
    intro pos hp
    rw [chunkLoop, if_pos hp]
  | succ fuel ih =>
    intro pos hp
    rw [chunkLoop, if_pos hp]
    have hmin : min (pos + 0) wlen = pos := by
      rw [add_zero]
      exact min_eq_left (le_of_lt hp)
    have hcond : ¬ (false = true ∧ min (pos + 0) wlen - pos < 0) := by
      intro hcontr
      exact absurd hcontr.1 (by simp)
    rw [if_neg hcond, hmin]
    simp [ih pos hp]

/-- Claim C10: the chunk-export loop terminates for every finite window
whenever the chunk step (`chunk_ms = round(chunk * 1000)`) is at least
1 ms — fuel `wlen + 1` always suffices since each iteration strictly
increases `pos` — and this precondition is necessary: with a step of 0 ms
and `drop_last` unset, the loop returns within no finite fuel whenever the
window is nonempty. -/
theorem c10_termination :
    (∀ (wlen cm : Int) (dl : Bool), 1 ≤ cm →
      (chunkLoop (wlen.toNat + 1) wlen cm dl 0).isSome = true) ∧
    (∀ (wlen : Int) (fuel : Nat) (pos : Int), pos < wlen →
      chunkLoop fuel wlen 0 false pos = none) := by
  constructor
  · intro wlen cm dl hcm
    apply chunkLoop_total wlen cm dl hcm
    have hto := Int.self_le_toNat wlen
    push_cast
    omega
  · intro wlen fuel pos hp
    exact chunkLoop_zero_stuck wlen fuel pos hp

/-- Claim C10, witness: a 5 ms window terminates with a 1 ms step, and
never returns with a 0 ms step and `drop_last` unset. -/
theorem c10_witness :
    (chunkLoop ((5 : Int).toNat + 1) 5 1 false 0).isSome = true ∧
    chunkLoop 7 5 0 false 0 = none :=
  ⟨c10_termination.1 5 1 false (by norm_num), c10_termination.2 5 7 0 (by norm_num)⟩

end AE
